import Mathlib

/-!
Verification of the 99tech code-challenge repository: the `problem_4`
summation utilities, the `problem_5` CRUD repository layer
(`BaseRepository` query builders and `ResourceRepository.delete`), and the
`problem_6` live-scoreboard design (modelled from its specification, since
the scoreboard ships as a design document without an implementation).
-/

/-! ### problem_4/sum_to_n.ts -/

/-- `sum_to_n_a` from `src/problem_4/sum_to_n.ts`: a loop accumulating
`sum += i` for `i = 1 .. n`. -/
def sum_to_n_a (n : Nat) : Nat :=
  (List.range' 1 n).foldl (fun sum i => sum + i) 0

/-- `sum_to_n_b` from `src/problem_4/sum_to_n.ts`: `(n * (n + 1)) / 2`. -/
def sum_to_n_b (n : Nat) : Nat :=
  n * (n + 1) / 2

/-- `sum_to_n_c` from `src/problem_4/sum_to_n.ts`:
`n === 0 ? 0 : n + sum_to_n_c(n - 1)`. -/
def sum_to_n_c : Nat → Nat
  | 0 => 0
  | n + 1 => (n + 1) + sum_to_n_c n

/-! ### problem_5: repository layer -/

/-- `ColumnType` from `src/problem_5/src/models/repository.model.ts`. -/
inductive ColumnType
  | string
  | number
  | date
deriving DecidableEq, Repr

/-- A value produced by `BaseRepository.coerceValue`: either the JavaScript
numeric conversion `Number(s)` of a string (kept symbolic) or a plain
string. -/
inductive SqlValue
  | num (s : String)
  | str (s : String)
deriving DecidableEq, Repr

/-- The JavaScript regex character class `\d` (ASCII digits). -/
def isAsciiDigit (c : Char) : Bool :=
  '0' ≤ c && c ≤ '9'

/-- Anchored matching of a character-class pattern against a whole string. -/
def matchPat : List (Char → Bool) → List Char → Bool
  | [], [] => true
  | p :: ps, c :: cs => p c && matchPat ps cs
  | _, _ => false

/-- A literal character in a pattern. -/
def litChar (a : Char) : Char → Bool :=
  fun c => c == a

/-- The pattern of the anchored regex `^\d{4}-\d{2}-\d{2}$`. -/
def dateOnlyPat : List (Char → Bool) :=
  [isAsciiDigit, isAsciiDigit, isAsciiDigit, isAsciiDigit, litChar '-',
   isAsciiDigit, isAsciiDigit, litChar '-', isAsciiDigit, isAsciiDigit]

/-- The pattern of the anchored regex
`^\d{4}-\d{2}-\d{2} \d{2}:\d{2}:\d{2}$`. -/
def dateTimePat : List (Char → Bool) :=
  dateOnlyPat ++
    [litChar ' ', isAsciiDigit, isAsciiDigit, litChar ':', isAsciiDigit,
     isAsciiDigit, litChar ':', isAsciiDigit, isAsciiDigit]

/-- Test of the regex `^\d{4}-\d{2}-\d{2} \d{2}:\d{2}:\d{2}$` used by
`BaseRepository.coerceValue`. -/
def matchesDateTime (s : String) : Bool :=
  matchPat dateTimePat s.data

/-- Test of the regex `^\d{4}-\d{2}-\d{2}$` used by
`BaseRepository.coerceValue`. -/
def matchesDateOnly (s : String) : Bool :=
  matchPat dateOnlyPat s.data

/-- `BaseRepository.coerceValue` from
`src/problem_5/src/repositories/base.repository.ts`: converts a string
value to the proper value for a column type. -/
def coerceValue (value : String) (type : ColumnType) : SqlValue :=
  match type with
  | .number => .num value
  | .date =>
    if matchesDateTime value then .str value
    else if matchesDateOnly value then .str (value ++ " 00:00:00")
    else .str ""
  | .string => .str value

/-- `BaseRepository.coerceArray`: coerce each element of an array. -/
def coerceArray (values : List String) (type : ColumnType) : List SqlValue :=
  values.map (coerceValue · type)

/-- `TableDescriptor` from `repository.model.ts`: a table name and a record
of column types, modelled as an association list in insertion order. -/
structure TableDescriptor where
  tableName : String
  columnTypes : List (String × ColumnType)
deriving DecidableEq, Repr

/-- `ResourceTableDescriptor` from
`src/problem_5/src/models/resource.model.ts`. -/
def ResourceTableDescriptor : TableDescriptor :=
  { tableName := "resources",
    columnTypes :=
      [("id", .number), ("name", .string), ("description", .string),
       ("status", .string), ("createdAt", .date), ("updatedAt", .date),
       ("rating", .number)] }

/-- `BaseRepository.resolveColumn`: find the first table whose column
record has the key, returning its table name and column type. -/
def resolveColumn : List TableDescriptor → String → Option (String × ColumnType)
  | [], _ => none
  | t :: ts, key =>
    match t.columnTypes.lookup key with
    | some ty => some (t.tableName, ty)
    | none => resolveColumn ts key

/-- A filter value in `buildWhereClause`: `string | string[]`. -/
inductive FilterValue
  | single (s : String)
  | multiple (l : List String)
deriving DecidableEq, Repr

/-- JavaScript `Array.prototype.join(sep)`. -/
def joinSep (sep : String) : List String → String
  | [] => ""
  | [x] => x
  | x :: y :: xs => x ++ sep ++ joinSep sep (y :: xs)

/-- One iteration of the loop in `BaseRepository.buildWhereClause`:
the condition string and parameters contributed by one filter entry, or
`none` when the key is skipped (unresolved column, or not in the
allowlist). -/
def whereEntry (tables : List TableDescriptor)
    (validColumnNames : Option (List String))
    (key : String) (rawValue : FilterValue) :
    Option (String × List SqlValue) :=
  match resolveColumn tables key with
  | none => none
  | some (table, type) =>
    match validColumnNames with
    | some valid =>
      if key ∈ valid then
        whereCondition table type key rawValue
      else
        none
    | none => whereCondition table type key rawValue
where
  /-- The condition and parameters for a resolved column. -/
  whereCondition (table : String) (type : ColumnType) (key : String) :
      FilterValue → Option (String × List SqlValue)
    | .multiple vs =>
      some (table ++ "." ++ key ++ " IN (" ++
              joinSep ", " (vs.map (fun _ => "?")) ++ ")",
            coerceArray vs type)
    | .single v =>
      some (table ++ "." ++ key ++ " = ?", [coerceValue v type])

/-- `BaseRepository.buildWhereClause`: build a WHERE clause and parameter
list from filter key-value pairs, keeping only keys that resolve to a
column of one of the given tables (and survive the optional allowlist). -/
def buildWhereClause (tables : List TableDescriptor)
    (filter : Option (List (String × FilterValue)))
    (validColumnNames : Option (List String)) : String × List SqlValue :=
  match filter with
  | none => ("", [])
  | some entries =>
    let pieces :=
      entries.filterMap (fun e => whereEntry tables validColumnNames e.1 e.2)
    let conditions := pieces.map Prod.fst
    let params := (pieces.map Prod.snd).flatten
    let clause :=
      if conditions.length > 0 then "WHERE " ++ joinSep " AND " conditions
      else ""
    (clause, params)

/-- A row of the `resources` table
(`Resource` in `src/problem_5/src/models/resource.model.ts`). -/
structure ResourceRow where
  id : Int
  name : String
  description : String
  status : String
deriving DecidableEq, Repr

/-- Modelled from the spec: the storage engine is consumed as an external
SQL store, so `DELETE FROM resources WHERE id = ?` is modelled by its SQL
semantics — remove every row whose `id` matches and report the affected
row count (the driver's `this.changes`). -/
def runDelete (table : List ResourceRow) (i : Int) : List ResourceRow × Nat :=
  (table.filter (fun r => !(r.id == i)), table.countP (fun r => r.id == i))

namespace ResourceRepository

/-- `ResourceRepository.delete` from
`src/problem_5/src/repositories/resource.repository.ts`: run the DELETE
statement and resolve `this.changes > 0`. -/
def delete (table : List ResourceRow) (i : Int) : List ResourceRow × Bool :=
  let result := runDelete table i
  (result.1, decide (0 < result.2))

end ResourceRepository

/-! ### problem_6: live-scoreboard pipeline

Modelled from the spec: `problem_6` ships only as a design specification
(the scoreboard API module has no implementation in the repository), so its
data model, guard pipeline and ledger are embedded from the
specification's words. Concurrency is modelled as a sequence of atomic
request submissions, as the spec requires each guard and the ledger update
to be atomic.
-/

namespace Scoreboard

/-- Modelled from the spec: the configuration surface of the scoreboard —
rate-limit threshold and window, max points per action type, fraud
thresholds and temporal-sanity bounds. -/
structure Config where
  rateLimitPerUser : Nat
  rateLimitWindow : Nat
  gainWindow : Nat
  maxPointsFor : String → Int
  suspiciousVelocityThreshold : Int
  manualReviewThreshold : Int
  clockSkewTolerance : Nat
  stalenessBound : Nat

/-- Modelled from the spec: a score-increment request — `action_id`
(idempotency key), caller identity, `action_type`, claimed `points`, and
an optional client timestamp. -/
structure IncrementRequest where
  action_id : String
  user_id : Nat
  action_type : String
  points : Int
  timestamp : Option Nat
deriving DecidableEq, Repr

/-- Modelled from the spec: an `ActionRecord` history entry (an accepted
action), append-only. -/
structure ActionRecord where
  action_id : String
  user_id : Nat
  action_type : String
  points : Int
  accepted_at : Nat
deriving DecidableEq, Repr

/-- Modelled from the spec: the scoreboard system state — the
`ScoreAccount` totals (one entry per user), the append-only
`score_history`, and the per-request velocity window of
`(user_id, request time)` attempts. -/
structure PipelineState where
  accounts : List (Nat × Int)
  history : List ActionRecord
  requests : List (Nat × Nat)
deriving DecidableEq, Repr

/-- The empty initial state: no users, no history, no requests. -/
def initState : PipelineState :=
  { accounts := [], history := [], requests := [] }

/-- Modelled from the spec: the result surfaced to the caller — success
with the new total (and whether the action was flagged for review),
`DuplicateAction`, `RateLimited` with a retry-after, or `InvalidAction`. -/
inductive SubmitResult
  | success (new_score : Int) (flagged : Bool)
  | duplicateAction
  | rateLimited (retry_after : Nat)
  | invalidAction
deriving DecidableEq, Repr

/-- The `action_id`s present in the ledger history. -/
def historyIds (s : PipelineState) : List String :=
  s.history.map (·.action_id)

/-- Total recorded in an account list for a user (0 when absent). -/
def acctTotal (l : List (Nat × Int)) (u : Nat) : Int :=
  match l.lookup u with
  | some v => v
  | none => 0

/-- `ScoreAccount.total_score` of a user (0 before first contact). -/
def totalOf (s : PipelineState) (u : Nat) : Int :=
  acctTotal s.accounts u

/-- Sum of `points` across all `ActionRecord`s of a user. -/
def sumPointsOf (s : PipelineState) (u : Nat) : Int :=
  ((s.history.filter (fun r => r.user_id == u)).map (·.points)).sum

/-- Request times of a user inside the sliding rate window ending at
`now` (strictly less than one window old). -/
def windowTimes (cfg : Config) (requests : List (Nat × Nat))
    (u : Nat) (now : Nat) : List Nat :=
  (requests.filter
      (fun p => p.1 == u && p.2 ≤ now && now < p.2 + cfg.rateLimitWindow)).map
    (·.2)

/-- `CheckVelocity`'s counter value: attempts of the user within the
current window. -/
def countInWindow (cfg : Config) (requests : List (Nat × Nat))
    (u : Nat) (now : Nat) : Nat :=
  (windowTimes cfg requests u now).length

/-- Modelled from the spec: the remaining window time returned with
`RateLimited` — until the oldest in-window attempt leaves the window. -/
def retryAfter (cfg : Config) (requests : List (Nat × Nat))
    (u : Nat) (now : Nat) : Nat :=
  match (windowTimes cfg requests u now).min? with
  | some oldest => oldest + cfg.rateLimitWindow - now
  | none => cfg.rateLimitWindow

/-- Modelled from the spec: temporal sanity — a supplied timestamp must
not be in the future beyond the clock-skew tolerance nor older than the
staleness bound. -/
def temporalOk (cfg : Config) (req : IncrementRequest) (now : Nat) : Bool :=
  match req.timestamp with
  | none => true
  | some ts => ts ≤ now + cfg.clockSkewTolerance && now ≤ ts + cfg.stalenessBound

/-- Modelled from the spec: points must be a positive integer bounded by
`MAX_POINTS_PER_ACTION` for the action type. -/
def boundsOk (cfg : Config) (req : IncrementRequest) : Bool :=
  0 < req.points && req.points ≤ cfg.maxPointsFor req.action_type

/-- Cumulative points gained by a user within the recent gain window. -/
def recentGain (cfg : Config) (s : PipelineState) (u : Nat) (now : Nat) : Int :=
  ((s.history.filter
      (fun r => r.user_id == u && r.accepted_at ≤ now &&
        now < r.accepted_at + cfg.gainWindow)).map
    (·.points)).sum

/-- Modelled from the spec: the fraud flag — velocity-of-gain above
`SUSPICIOUS_VELOCITY_THRESHOLD`, or post-increment total above
`MANUAL_REVIEW_THRESHOLD`; flagged actions are accepted. -/
def fraudFlag (cfg : Config) (s : PipelineState) (req : IncrementRequest)
    (now : Nat) : Bool :=
  (cfg.suspiciousVelocityThreshold <
      recentGain cfg s req.user_id now + req.points) ||
    (cfg.manualReviewThreshold < totalOf s req.user_id + req.points)

/-- Upsert into the account list: add points to the user's entry, creating
it on first contact. -/
def upsert : List (Nat × Int) → Nat → Int → List (Nat × Int)
  | [], u, p => [(u, p)]
  | (v, sc) :: rest, u, p =>
    if v == u then (v, sc + p) :: rest else (v, sc) :: upsert rest u p

/-- Modelled from the spec: `ApplyIncrement` — insert the `ActionRecord`
and increment `ScoreAccount.total_score` as one atomic unit. -/
def applyIncrement (s : PipelineState) (req : IncrementRequest)
    (now : Nat) : PipelineState :=
  { s with
    history :=
      { action_id := req.action_id, user_id := req.user_id,
        action_type := req.action_type, points := req.points,
        accepted_at := now } :: s.history,
    accounts := upsert s.accounts req.user_id req.points }

/-- Modelled from the spec: the score-update pipeline for one verified
request — `CheckAndReserve` (duplicate `action_id` fails with no side
effect), `CheckVelocity` (the attempt is counted, overflow fails with
`RateLimited` and the remaining window time), fraud checks (bounds and
temporal sanity reject with `InvalidAction`; velocity-of-gain and the
review ceiling only flag), then the atomic `ApplyIncrement`. -/
def submit (cfg : Config) (s : PipelineState) (req : IncrementRequest)
    (now : Nat) : PipelineState × SubmitResult :=
  if (historyIds s).contains req.action_id then
    (s, .duplicateAction)
  else if cfg.rateLimitPerUser ≤ countInWindow cfg s.requests req.user_id now then
    ({ s with requests := (req.user_id, now) :: s.requests },
     .rateLimited (retryAfter cfg s.requests req.user_id now))
  else if !boundsOk cfg req then
    ({ s with requests := (req.user_id, now) :: s.requests }, .invalidAction)
  else if !temporalOk cfg req now then
    ({ s with requests := (req.user_id, now) :: s.requests }, .invalidAction)
  else
    (applyIncrement { s with requests := (req.user_id, now) :: s.requests }
       req now,
     .success (totalOf s req.user_id + req.points) (fraudFlag cfg s req now))

/-- Run a sequence of timestamped requests from a starting state. -/
def runFrom (cfg : Config) (s : PipelineState) :
    List (IncrementRequest × Nat) → PipelineState
  | [] => s
  | (req, now) :: rest => runFrom cfg (submit cfg s req now).1 rest

/-- Run a sequence of timestamped requests from the initial state. -/
def run (cfg : Config) (l : List (IncrementRequest × Nat)) : PipelineState :=
  runFrom cfg initState l

/-- The ranking order `(total_score DESC, user_id ASC)` on
`(user_id, total_score)` account entries. -/
def rankRel (a b : Nat × Int) : Prop :=
  b.2 < a.2 ∨ (a.2 = b.2 ∧ a.1 ≤ b.1)

instance : DecidableRel rankRel := fun a b => by
  unfold rankRel; infer_instance

instance : IsTotal (Nat × Int) rankRel :=
  ⟨fun a b => by unfold rankRel; omega⟩

instance : IsTrans (Nat × Int) rankRel :=
  ⟨fun a b c hab hbc => by unfold rankRel at *; omega⟩

/-- Modelled from the spec: `GetTopN` — the account entries ordered by
`(total_score DESC, user_id ASC)`, truncated to the first `n`. -/
def getTopN (n : Nat) (s : PipelineState) : List (Nat × Int) :=
  (List.insertionSort rankRel s.accounts).take n

/-- The number of distinct users known to the system. -/
def distinctUsers (s : PipelineState) : Nat :=
  ((s.accounts.map Prod.fst).dedup).length

end Scoreboard


/-! ### Auxiliary predicates and sample data -/

/-- Number of `?` placeholder characters in a string. -/
def countQ (s : String) : Nat :=
  s.data.count '?'

/-- Identifier sanity for a list of table descriptors: no table name or
column key contains a `?` character. -/
def NoPlaceholderIdents (tables : List TableDescriptor) : Prop :=
  ∀ td ∈ tables, countQ td.tableName = 0 ∧ ∀ p ∈ td.columnTypes, countQ p.1 = 0

instance : DecidablePred NoPlaceholderIdents := fun tables => by
  unfold NoPlaceholderIdents; infer_instance

namespace Scoreboard

/-- The ledger consistency invariant: every account total equals the sum
of the user's history points. -/
def LedgerInv (s : PipelineState) : Prop :=
  ∀ u, totalOf s u = sumPointsOf s u

/-- Well-formedness of the account table: one entry per user. -/
def AccountsNodup (s : PipelineState) : Prop :=
  (s.accounts.map Prod.fst).Nodup

/-- The configuration values given in the design document:
`RATE_LIMIT_PER_USER=10`, `RATE_LIMIT_WINDOW=60`,
`MAX_POINTS_PER_ACTION=1000`, `SUSPICIOUS_VELOCITY_THRESHOLD=100`,
`MANUAL_REVIEW_THRESHOLD=10000`. -/
def sampleConfig : Config :=
  { rateLimitPerUser := 10, rateLimitWindow := 60, gainWindow := 60,
    maxPointsFor := fun _ => 1000, suspiciousVelocityThreshold := 100,
    manualReviewThreshold := 10000, clockSkewTolerance := 5,
    stalenessBound := 300 }

/-- A sample well-formed increment request. -/
def sampleReq : IncrementRequest :=
  { action_id := "a1", user_id := 7, action_type := "quest", points := 10,
    timestamp := none }

/-- A request claiming more points than `MAX_POINTS_PER_ACTION` allows
(the design document's `points=5000` versus a 1000 cap scenario). -/
def overLimitReq : IncrementRequest :=
  { action_id := "b1", user_id := 7, action_type := "quest", points := 5000,
    timestamp := none }

/-- A request that passes all hard checks but trips the
velocity-of-gain flag. -/
def flaggedReq : IncrementRequest :=
  { action_id := "f1", user_id := 7, action_type := "quest", points := 1000,
    timestamp := none }

/-- A state in which user 7 already made ten requests in the last minute. -/
def rateState : PipelineState :=
  { accounts := [], history := [],
    requests := [(7, 0), (7, 1), (7, 2), (7, 3), (7, 4), (7, 5), (7, 6),
                 (7, 7), (7, 8), (7, 9)] }

end Scoreboard

/-! ## Theorems -/

/-! ### C9: the three summation implementations agree -/

theorem two_mul_sum_to_n_c (n : Nat) : 2 * sum_to_n_c n = n * (n + 1) := by
  induction n with
  | zero => rfl
  | succ k ih =>
    show 2 * ((k + 1) + sum_to_n_c k) = (k + 1) * (k + 2)
    rw [Nat.mul_add, ih]
    ring

theorem sum_to_n_c_closed (n : Nat) : sum_to_n_c n = n * (n + 1) / 2 := by
  have h := two_mul_sum_to_n_c n
  omega

theorem sum_to_n_a_eq_c (n : Nat) : sum_to_n_a n = sum_to_n_c n := by
  induction n with
  | zero => rfl
  | succ k ih =>
    unfold sum_to_n_a at ih ⊢
    rw [List.range'_concat, List.foldl_append, ih]
    simp only [List.foldl_cons, List.foldl_nil, sum_to_n_c]
    omega

/-- C9: for every non-negative integer `n`, the three implementations
`sum_to_n_a`, `sum_to_n_b`, `sum_to_n_c` all compute `n * (n + 1) / 2`
over exact integer arithmetic. -/
theorem sum_to_n_implementations_agree (n : Nat) :
    sum_to_n_a n = n * (n + 1) / 2 ∧ sum_to_n_b n = n * (n + 1) / 2 ∧
      sum_to_n_c n = n * (n + 1) / 2 :=
  ⟨(sum_to_n_a_eq_c n).trans (sum_to_n_c_closed n), rfl, sum_to_n_c_closed n⟩

/-! ### C7: delete resolves the driver's affected-row signal -/

/-- C7: `ResourceRepository.delete(id)` resolves to `true` exactly when
the DELETE statement reports at least one affected row, which happens
exactly when a row with that id existed. -/
theorem delete_true_iff_affected (table : List ResourceRow) (i : Int) :
    ((ResourceRepository.delete table i).2 = true ↔
      1 ≤ (runDelete table i).2) ∧
    (1 ≤ (runDelete table i).2 ↔ ∃ r ∈ table, r.id = i) := by
  constructor
  · simp [ResourceRepository.delete]
    omega
  · simp [runDelete, List.countP_pos_iff]

/-! ### C8: coerceValue string-sniffed coercion -/

/-- C8: `coerceValue` returns `Number(value)` for a `number` column; for a
`date` column it keeps a `YYYY-MM-DD HH:MM:SS` value, appends
`" 00:00:00"` to a `YYYY-MM-DD` value, and returns the empty string for
every other input; for any other column type the string is unchanged. -/
theorem coerceValue_spec (value : String) :
    coerceValue value .number = .num value ∧
    coerceValue value .string = .str value ∧
    (matchesDateTime value = true → coerceValue value .date = .str value) ∧
    (matchesDateTime value = false → matchesDateOnly value = true →
      coerceValue value .date = .str (value ++ " 00:00:00")) ∧
    (matchesDateTime value = false → matchesDateOnly value = false →
      coerceValue value .date = .str "") := by
  refine ⟨rfl, rfl, ?_, ?_, ?_⟩
  · intro h1
    simp [coerceValue, h1]
  · intro h1 h2
    simp [coerceValue, h1, h2]
  · intro h1 h2
    simp [coerceValue, h1, h2]

/-- Concrete instance of C8: a bare date gets midnight appended. -/
theorem coerceValue_spec_witness :
    matchesDateTime "2024-01-02" = false ∧ matchesDateOnly "2024-01-02" = true ∧
      coerceValue "2024-01-02" .date = .str "2024-01-02 00:00:00" :=
  ⟨by decide, by decide,
    (coerceValue_spec "2024-01-02").2.2.2.1 (by decide) (by decide)⟩

/-! ### C10: placeholders and parameters in buildWhereClause -/

theorem countQ_append (a b : String) : countQ (a ++ b) = countQ a + countQ b := by
  simp [countQ, String.data_append, List.count_append]

theorem countQ_joinSep (sep : String) (hsep : countQ sep = 0) :
    ∀ l : List String, countQ (joinSep sep l) = (l.map countQ).sum
  | [] => by simp [joinSep, countQ]
  | [x] => by simp [joinSep]
  | x :: y :: xs => by
    have ih := countQ_joinSep sep hsep (y :: xs)
    simp only [joinSep, List.map_cons, List.sum_cons] at ih ⊢
    rw [countQ_append, countQ_append, hsep, ih]
    omega

theorem lookup_mem {l : List (String × ColumnType)} {key : String}
    {ty : ColumnType} (h : l.lookup key = some ty) : (key, ty) ∈ l := by
  induction l with
  | nil => simp [List.lookup] at h
  | cons p rest ih =>
    rw [List.lookup] at h
    by_cases hk : key = p.1
    · subst hk
      simp at h
      subst h
      exact List.mem_cons_self _ _
    · have : (key == p.1) = false := beq_false_of_ne hk
      rw [this] at h
      exact List.mem_cons_of_mem _ (ih h)

theorem resolveColumn_sound {tables : List TableDescriptor} {key : String}
    {tbl : String} {ty : ColumnType}
    (h : resolveColumn tables key = some (tbl, ty)) :
    ∃ td ∈ tables, td.tableName = tbl ∧ (key, ty) ∈ td.columnTypes := by
  induction tables with
  | nil => simp [resolveColumn] at h
  | cons t ts ih =>
    rw [resolveColumn] at h
    cases hl : t.columnTypes.lookup key with
    | some ty' =>
      rw [hl] at h
      simp at h
      exact ⟨t, List.mem_cons_self _ _, h.1, h.2 ▸ lookup_mem hl⟩
    | none =>
      rw [hl] at h
      obtain ⟨td, htd, h1, h2⟩ := ih h
      exact ⟨td, List.mem_cons_of_mem _ htd, h1, h2⟩

theorem countQ_qmark : countQ "?" = 1 := by decide

theorem countQ_commaSpace : countQ ", " = 0 := by decide

theorem countQ_joinSep_replicate (n : Nat) :
    countQ (joinSep ", " (List.replicate n "?")) = n := by
  induction n with
  | zero => decide
  | succ k ih =>
    cases k with
    | zero => decide
    | succ m =>
      rw [List.replicate_succ, List.replicate_succ, joinSep, countQ_append,
        countQ_append, ← List.replicate_succ, countQ_qmark, countQ_commaSpace]
      omega

theorem whereEntry_count {tables : List TableDescriptor}
    {valid : Option (List String)} {key : String} {rv : FilterValue}
    {cond : String} {ps : List SqlValue}
    (hid : NoPlaceholderIdents tables)
    (h : whereEntry tables valid key rv = some (cond, ps)) :
    countQ cond = ps.length := by
  rw [whereEntry] at h
  cases hres : resolveColumn tables key with
  | none => rw [hres] at h; simp at h
  | some p =>
    obtain ⟨tbl, ty⟩ := p
    rw [hres] at h
    obtain ⟨td, htd, htbl, hkey⟩ := resolveColumn_sound hres
    have hqt : countQ tbl = 0 := htbl ▸ (hid td htd).1
    have hqk : countQ key = 0 := (hid td htd).2 _ hkey
    have hcond : whereEntry.whereCondition tbl ty key rv = some (cond, ps) := by
      cases valid with
      | none => exact h
      | some v =>
        by_cases hv : key ∈ v
        · simpa [hv] using h
        · simp [hv] at h
    cases rv with
    | single s =>
      rw [whereEntry.whereCondition] at hcond
      simp only [Option.some.injEq, Prod.mk.injEq] at hcond
      rw [← hcond.1, ← hcond.2]
      have h1 : countQ "." = 0 := by decide
      have h2 : countQ " = ?" = 1 := by decide
      simp [countQ_append, hqt, hqk, h1, h2]
    | multiple vs =>
      rw [whereEntry.whereCondition] at hcond
      simp only [Option.some.injEq, Prod.mk.injEq] at hcond
      rw [← hcond.1, ← hcond.2]
      have h1 : countQ "." = 0 := by decide
      have h2 : countQ " IN (" = 0 := by decide
      have h3 : countQ ")" = 0 := by decide
      have h4 : vs.map (fun _ => "?") = List.replicate vs.length "?" :=
        List.map_const' vs "?"
      rw [h4]
      simp [countQ_append, hqt, hqk, h1, h2, h3, countQ_joinSep_replicate,
        coerceArray]

theorem whereEntry_none_of_unresolved {tables : List TableDescriptor}
    {valid : Option (List String)} {key : String} {rv : FilterValue}
    (h : resolveColumn tables key = none) :
    whereEntry tables valid key rv = none := by
  rw [whereEntry, h]

/-- C10: `buildWhereClause` emits conditions and parameters only for keys
that resolve to a column of one of the given tables: the number of `?`
placeholders in the clause equals the length of the parameter array
(given that table and column identifiers contain no `?`), and a missing
or fully-unresolved filter yields an empty clause with no parameters. -/
theorem buildWhereClause_placeholders_match_params
    (tables : List TableDescriptor)
    (filter : Option (List (String × FilterValue)))
    (valid : Option (List String))
    (hid : NoPlaceholderIdents tables) :
    countQ (buildWhereClause tables filter valid).1 =
      (buildWhereClause tables filter valid).2.length ∧
    buildWhereClause tables none valid = ("", []) ∧
    ∀ entries : List (String × FilterValue),
      (∀ e ∈ entries, resolveColumn tables e.1 = none) →
      buildWhereClause tables (some entries) valid = ("", []) := by
  refine ⟨?_, rfl, ?_⟩
  · cases filter with
    | none => rfl
    | some entries =>
      simp only [buildWhereClause]
      have key : ∀ p ∈ entries.filterMap
          (fun e => whereEntry tables valid e.1 e.2),
          countQ p.1 = p.2.length := by
        intro p hp
        obtain ⟨e, _, hw⟩ := List.mem_filterMap.mp hp
        exact whereEntry_count hid (by
          obtain ⟨c, q⟩ := p
          exact hw)
      set pieces :=
        entries.filterMap (fun e => whereEntry tables valid e.1 e.2) with hpieces
      by_cases hlen : (pieces.map Prod.fst).length > 0
      · simp only [hlen, if_pos]
        rw [countQ_append, countQ_joinSep " AND " (by decide)]
        have hwq : countQ "WHERE " = 0 := by decide
        rw [hwq, List.length_flatten, List.map_map, List.map_map]
        have : pieces.map (countQ ∘ Prod.fst) =
            pieces.map (List.length ∘ Prod.snd) :=
          List.map_congr_left fun p hp => key p hp
        rw [this]
        omega
      · rw [if_neg hlen]
        have hnl : pieces = [] := by
          cases hq : pieces with
          | nil => rfl
          | cons p ps' => rw [hq] at hlen; simp at hlen
        rw [hnl]
        rfl
  · intro entries h
    have hnil : entries.filterMap
        (fun e => whereEntry tables valid e.1 e.2) = [] :=
      List.filterMap_eq_nil_iff.mpr fun e he =>
        whereEntry_none_of_unresolved (h e he)
    simp only [buildWhereClause, hnil]
    rfl

/-- Concrete instance of C10 on the `resources` table descriptor: one
resolved key, one unresolved key, and an IN-list give three placeholders
and three parameters. -/
theorem buildWhereClause_placeholders_witness :
    NoPlaceholderIdents [ResourceTableDescriptor] ∧
      countQ (buildWhereClause [ResourceTableDescriptor]
          (some [("name", .single "abc"), ("bogus", .single "x"),
                 ("id", .multiple ["1", "2"])]) none).1 =
        (buildWhereClause [ResourceTableDescriptor]
          (some [("name", .single "abc"), ("bogus", .single "x"),
                 ("id", .multiple ["1", "2"])]) none).2.length :=
  ⟨by decide,
    (buildWhereClause_placeholders_match_params [ResourceTableDescriptor]
      (some [("name", .single "abc"), ("bogus", .single "x"),
             ("id", .multiple ["1", "2"])]) none (by decide)).1⟩

/-! ### C1: ledger consistency invariant -/

namespace Scoreboard

theorem acctTotal_upsert (l : List (Nat × Int)) (u : Nat) (p : Int) (v : Nat) :
    acctTotal (upsert l u p) v = acctTotal l v + (if v = u then p else 0) := by
  induction l with
  | nil =>
    by_cases h : v = u
    · subst h
      simp [upsert, acctTotal, List.lookup]
    · simp [upsert, acctTotal, List.lookup, beq_false_of_ne h, h]
  | cons head tail ih =>
    obtain ⟨w, sc⟩ := head
    by_cases hw : w = u
    · subst hw
      simp only [upsert, beq_self_eq_true, if_true]
      by_cases hv : v = w
      · subst hv
        simp [acctTotal, List.lookup]
      · simp [acctTotal, List.lookup, beq_false_of_ne hv, hv]
    · simp only [upsert, beq_false_of_ne hw, Bool.false_eq_true, if_false]
      by_cases hv : v = w
      · subst hv
        have hvu : v ≠ u := hw
        simp [acctTotal, List.lookup, hvu]
      · simp only [acctTotal, List.lookup, beq_false_of_ne hv] at ih ⊢
        exact ih

theorem totalOf_applyIncrement (s : PipelineState) (req : IncrementRequest)
    (now : Nat) (v : Nat) :
    totalOf (applyIncrement s req now) v =
      totalOf s v + (if v = req.user_id then req.points else 0) :=
  acctTotal_upsert s.accounts req.user_id req.points v

theorem sumPointsOf_applyIncrement (s : PipelineState) (req : IncrementRequest)
    (now : Nat) (v : Nat) :
    sumPointsOf (applyIncrement s req now) v =
      sumPointsOf s v + (if v = req.user_id then req.points else 0) := by
  by_cases h : req.user_id = v
  · subst h
    simp [sumPointsOf, applyIncrement, List.filter]
    omega
  · have : v ≠ req.user_id := fun he => h he.symm
    simp [sumPointsOf, applyIncrement, List.filter, beq_false_of_ne h, this]

theorem submit_preserves_ledgerInv (cfg : Config) (s : PipelineState)
    (req : IncrementRequest) (now : Nat) (h : LedgerInv s) :
    LedgerInv (submit cfg s req now).1 := by
  intro u
  unfold submit
  split_ifs with h1 h2 h3 h4
  · exact h u
  · exact h u
  · exact h u
  · exact h u
  · rw [totalOf_applyIncrement, sumPointsOf_applyIncrement]
    show totalOf s u + _ = sumPointsOf s u + _
    rw [h u]

theorem runFrom_ledgerInv (cfg : Config) (l : List (IncrementRequest × Nat))
    (s : PipelineState) (h : LedgerInv s) : LedgerInv (runFrom cfg s l) := by
  induction l generalizing s with
  | nil => exact h
  | cons hd tl ih =>
    rw [runFrom]
    exact ih _ (submit_preserves_ledgerInv cfg s hd.1 hd.2 h)

end Scoreboard

/-- C1: after any sequence of accepted actions, every user's
`ScoreAccount.total_score` equals the sum of the `points` of all
`ActionRecord`s (`score_history` entries) recorded for that user. -/
theorem ledger_consistency (cfg : Scoreboard.Config)
    (l : List (Scoreboard.IncrementRequest × Nat)) (u : Nat) :
    Scoreboard.totalOf (Scoreboard.run cfg l) u =
      Scoreboard.sumPointsOf (Scoreboard.run cfg l) u :=
  Scoreboard.runFrom_ledgerInv cfg l Scoreboard.initState (fun _ => rfl) u

/-! ### C2: idempotency of action submission -/

namespace Scoreboard

theorem submit_success_state {cfg : Config} {s : PipelineState}
    {req : IncrementRequest} {now : Nat} {s₁ : PipelineState} {n : Int}
    {f : Bool} (h : submit cfg s req now = (s₁, .success n f)) :
    s₁ = applyIncrement { s with requests := (req.user_id, now) :: s.requests }
        req now := by
  unfold submit at h
  split_ifs at h
  · simp at h
  · simp at h
  · simp at h
  · simp at h
  · exact (Prod.mk.injEq _ _ _ _ ▸ h).1.symm

end Scoreboard

/-- C2: a successful submission leaves exactly one `ActionRecord` with the
request's `action_id`, and every later submission reusing that
`action_id` returns `DuplicateAction` with no change of state at all — in
particular one point increment happened and the total stays unchanged. -/
theorem duplicate_submission_idempotent (cfg : Scoreboard.Config)
    (s : Scoreboard.PipelineState) (req : Scoreboard.IncrementRequest)
    (now : Nat) (s₁ : Scoreboard.PipelineState) (n : Int) (f : Bool)
    (hfresh : req.action_id ∉ Scoreboard.historyIds s)
    (hfirst : Scoreboard.submit cfg s req now = (s₁, .success n f)) :
    s₁.history.countP (fun r => r.action_id == req.action_id) = 1 ∧
    ∀ (req' : Scoreboard.IncrementRequest) (now' : Nat),
      req'.action_id = req.action_id →
      Scoreboard.submit cfg s₁ req' now' = (s₁, .duplicateAction) := by
  have hs := Scoreboard.submit_success_state hfirst
  subst hs
  constructor
  · have h0 : s.history.countP (fun r => r.action_id == req.action_id) = 0 :=
      List.countP_eq_zero.mpr (fun r hr => by
        simp only [beq_iff_eq]
        intro he
        exact hfresh (List.mem_map.mpr ⟨r, hr, he⟩))
    simp [Scoreboard.applyIncrement, List.countP_cons, h0]
  · intro req' now' hid
    have hmem : req'.action_id ∈ Scoreboard.historyIds
        (Scoreboard.applyIncrement
          { s with requests := (req.user_id, now) :: s.requests } req now) := by
      simp [Scoreboard.historyIds, Scoreboard.applyIncrement, hid]
    rw [Scoreboard.submit, if_pos (by simp [hmem])]

/-- Concrete instance of C2: resubmitting `action_id = "a1"` after its
successful application returns `DuplicateAction` and changes nothing. -/
theorem duplicate_submission_idempotent_witness :
    (Scoreboard.submit Scoreboard.sampleConfig
        (Scoreboard.submit Scoreboard.sampleConfig Scoreboard.initState
          Scoreboard.sampleReq 0).1 Scoreboard.sampleReq 1 =
      ((Scoreboard.submit Scoreboard.sampleConfig Scoreboard.initState
          Scoreboard.sampleReq 0).1, .duplicateAction)) ∧
    (Scoreboard.submit Scoreboard.sampleConfig Scoreboard.initState
        Scoreboard.sampleReq 0).1.history.countP
      (fun r => r.action_id == Scoreboard.sampleReq.action_id) = 1 := by
  have h := duplicate_submission_idempotent Scoreboard.sampleConfig
    Scoreboard.initState Scoreboard.sampleReq 0
    (Scoreboard.submit Scoreboard.sampleConfig Scoreboard.initState
      Scoreboard.sampleReq 0).1 10 false (by decide) (by decide)
  exact ⟨h.2 Scoreboard.sampleReq 1 rfl, h.1⟩

/-! ### C3: GetTopN ordering and size -/

namespace Scoreboard

theorem mem_upsert_fst (l : List (Nat × Int)) (u : Nat) (p : Int) :
    ∀ x ∈ (upsert l u p).map Prod.fst, x = u ∨ x ∈ l.map Prod.fst := by
  induction l with
  | nil =>
    intro x hx
    simp [upsert] at hx
    exact Or.inl hx
  | cons head tail ih =>
    obtain ⟨w, sc⟩ := head
    intro x hx
    by_cases hw : w = u
    · subst hw
      simp only [upsert, beq_self_eq_true, if_true] at hx
      simp at hx ⊢
      tauto
    · simp only [upsert, beq_false_of_ne hw, Bool.false_eq_true, if_false,
        List.map_cons, List.mem_cons] at hx
      rcases hx with hx | hx
      · simp [hx]
      · rcases ih x hx with h | h
        · exact Or.inl h
        · simp [h]

theorem nodup_upsert (l : List (Nat × Int)) (u : Nat) (p : Int)
    (h : (l.map Prod.fst).Nodup) : ((upsert l u p).map Prod.fst).Nodup := by
  induction l with
  | nil => simp [upsert]
  | cons head tail ih =>
    obtain ⟨w, sc⟩ := head
    simp only [List.map_cons, List.nodup_cons] at h
    by_cases hw : w = u
    · subst hw
      simp only [upsert, beq_self_eq_true, if_true, List.map_cons,
        List.nodup_cons]
      exact h
    · simp only [upsert, beq_false_of_ne hw, Bool.false_eq_true, if_false,
        List.map_cons, List.nodup_cons]
      refine ⟨fun hmem => ?_, ih h.2⟩
      rcases mem_upsert_fst tail u p w hmem with he | he
      · exact hw he
      · exact h.1 he

theorem submit_preserves_accountsNodup (cfg : Config) (s : PipelineState)
    (req : IncrementRequest) (now : Nat) (h : AccountsNodup s) :
    AccountsNodup (submit cfg s req now).1 := by
  unfold submit
  split_ifs
  · exact h
  · exact h
  · exact h
  · exact h
  · exact nodup_upsert s.accounts req.user_id req.points h

theorem run_accountsNodup (cfg : Config) (l : List (IncrementRequest × Nat)) :
    AccountsNodup (run cfg l) := by
  suffices h : ∀ s, AccountsNodup s → AccountsNodup (runFrom cfg s l) from
    h initState List.nodup_nil
  induction l with
  | nil => exact fun s hs => hs
  | cons hd tl ih =>
    intro s hs
    rw [runFrom]
    exact ih _ (submit_preserves_accountsNodup cfg s hd.1 hd.2 hs)

end Scoreboard

/-- C3: in every reachable system state, `GetTopN(10)` returns entries
sorted by `(total_score DESC, user_id ASC)` and its length never exceeds
the number of distinct users. -/
theorem getTopN_sorted_and_bounded (cfg : Scoreboard.Config)
    (l : List (Scoreboard.IncrementRequest × Nat)) :
    List.Sorted Scoreboard.rankRel (Scoreboard.getTopN 10 (Scoreboard.run cfg l)) ∧
      (Scoreboard.getTopN 10 (Scoreboard.run cfg l)).length ≤
        Scoreboard.distinctUsers (Scoreboard.run cfg l) := by
  constructor
  · exact List.Pairwise.sublist (List.take_sublist _ _)
      (List.sorted_insertionSort Scoreboard.rankRel _)
  · have hnd := Scoreboard.run_accountsNodup cfg l
    unfold Scoreboard.distinctUsers Scoreboard.getTopN
    rw [List.Nodup.dedup hnd, List.length_map]
    calc (List.take 10 (List.insertionSort Scoreboard.rankRel
            (Scoreboard.run cfg l).accounts)).length
        ≤ (List.insertionSort Scoreboard.rankRel
            (Scoreboard.run cfg l).accounts).length :=
          List.Sublist.length_le (List.take_sublist _ _)
      _ = (Scoreboard.run cfg l).accounts.length :=
          (List.perm_insertionSort Scoreboard.rankRel _).length_eq

/-! ### C4: bounds rejection with no side effect -/

/-- C4: a request whose `points` is not a positive integer bounded by
`MAX_POINTS_PER_ACTION` for its `action_type` never mutates the ledger —
no `ActionRecord` is inserted and every total is unchanged — and, when
the request is not short-circuited by the duplicate or rate guards, the
pipeline returns `InvalidAction`. -/
theorem invalid_points_no_side_effect (cfg : Scoreboard.Config)
    (s : Scoreboard.PipelineState) (req : Scoreboard.IncrementRequest)
    (now : Nat)
    (hbad : ¬ (0 < req.points ∧
        req.points ≤ cfg.maxPointsFor req.action_type)) :
    (Scoreboard.submit cfg s req now).1.history = s.history ∧
    (∀ u, Scoreboard.totalOf (Scoreboard.submit cfg s req now).1 u =
      Scoreboard.totalOf s u) ∧
    (req.action_id ∉ Scoreboard.historyIds s →
      Scoreboard.countInWindow cfg s.requests req.user_id now <
        cfg.rateLimitPerUser →
      (Scoreboard.submit cfg s req now).2 = .invalidAction) := by
  have hb : Scoreboard.boundsOk cfg req = false := by
    rw [Bool.eq_false_iff]
    intro ht
    rw [Scoreboard.boundsOk] at ht
    simp only [Bool.and_eq_true, decide_eq_true_eq] at ht
    exact hbad ht
  unfold Scoreboard.submit
  split_ifs with h1 h2 h3 h4
  · refine ⟨rfl, fun u => rfl, fun hna _ => ?_⟩
    simp at h1
    exact absurd h1 hna
  · exact ⟨rfl, fun u => rfl, fun _ hcnt => absurd h2 (by omega)⟩
  · exact ⟨rfl, fun u => rfl, fun _ _ => rfl⟩
  · simp [hb] at h3
  · simp [hb] at h3

/-- Concrete instance of C4: the design document's `points=5000` versus
cap 1000 scenario is rejected with `InvalidAction` and an empty ledger. -/
theorem invalid_points_no_side_effect_witness :
    (Scoreboard.submit Scoreboard.sampleConfig Scoreboard.initState
        Scoreboard.overLimitReq 0).2 = .invalidAction ∧
    (Scoreboard.submit Scoreboard.sampleConfig Scoreboard.initState
        Scoreboard.overLimitReq 0).1.history = Scoreboard.initState.history := by
  have h := invalid_points_no_side_effect Scoreboard.sampleConfig
    Scoreboard.initState Scoreboard.overLimitReq 0 (by decide)
  exact ⟨h.2.2 (by decide) (by decide), h.1⟩

/-! ### C5: rate limiting -/

namespace Scoreboard

theorem retryAfter_bounds (cfg : Config) (requests : List (Nat × Nat))
    (u now : Nat) (h : windowTimes cfg requests u now ≠ []) :
    0 < retryAfter cfg requests u now ∧
      retryAfter cfg requests u now ≤ cfg.rateLimitWindow := by
  cases hmin : (windowTimes cfg requests u now).min? with
  | none => exact absurd (List.min?_eq_none_iff.mp hmin) h
  | some m =>
    have hmem : m ∈ windowTimes cfg requests u now :=
      List.min?_mem (fun a b => min_choice a b) hmin
    unfold windowTimes at hmem
    obtain ⟨p, hp, hpe⟩ := List.mem_map.mp hmem
    have hf := (List.mem_filter.mp hp).2
    simp only [Bool.and_eq_true, decide_eq_true_eq, beq_iff_eq] at hf
    have hra : retryAfter cfg requests u now =
        m + cfg.rateLimitWindow - now := by
      rw [retryAfter, hmin]
    rw [hra]
    omega

end Scoreboard

/-- C5: once at least `RATE_LIMIT_PER_USER` requests by a user fall in
the current `RATE_LIMIT_WINDOW`, a further (fresh) request from that user
fails with `RateLimited` carrying a positive `retry_after` that is at
most the window length. -/
theorem rate_limited_request (cfg : Scoreboard.Config)
    (s : Scoreboard.PipelineState) (req : Scoreboard.IncrementRequest)
    (now : Nat)
    (hfresh : req.action_id ∉ Scoreboard.historyIds s)
    (hlim : 1 ≤ cfg.rateLimitPerUser)
    (hcount : cfg.rateLimitPerUser ≤
      Scoreboard.countInWindow cfg s.requests req.user_id now) :
    ∃ retry, (Scoreboard.submit cfg s req now).2 = .rateLimited retry ∧
      0 < retry ∧ retry ≤ cfg.rateLimitWindow := by
  have hne : Scoreboard.windowTimes cfg s.requests req.user_id now ≠ [] := by
    intro h0
    rw [Scoreboard.countInWindow, h0] at hcount
    simp at hcount
    omega
  obtain ⟨hpos, hle⟩ :=
    Scoreboard.retryAfter_bounds cfg s.requests req.user_id now hne
  refine ⟨Scoreboard.retryAfter cfg s.requests req.user_id now, ?_, hpos, hle⟩
  rw [Scoreboard.submit, if_neg (by simp [hfresh]), if_pos hcount]

/-- Concrete instance of C5: the 11th request inside 60 seconds with
`RATE_LIMIT_PER_USER=10` is rate limited with `retry_after ≤ 60`. -/
theorem rate_limited_request_witness :
    ∃ retry, (Scoreboard.submit Scoreboard.sampleConfig Scoreboard.rateState
        Scoreboard.sampleReq 10).2 = .rateLimited retry ∧
      0 < retry ∧ retry ≤ Scoreboard.sampleConfig.rateLimitWindow :=
  rate_limited_request Scoreboard.sampleConfig Scoreboard.rateState
    Scoreboard.sampleReq 10 (by decide) (by decide) (by decide)

/-! ### C6: flagged actions still succeed -/

/-- C6: a request that passes the duplicate, rate, bounds and temporal
checks but trips a fraud flag (velocity-of-gain above
`SUSPICIOUS_VELOCITY_THRESHOLD`, or post-increment total above
`MANUAL_REVIEW_THRESHOLD`) is applied to the ledger exactly as an
unflagged action — the state is the plain `ApplyIncrement` result, which
does not depend on the flag — and the caller receives success (with the
flag marked). -/
theorem flagged_action_still_succeeds (cfg : Scoreboard.Config)
    (s : Scoreboard.PipelineState) (req : Scoreboard.IncrementRequest)
    (now : Nat)
    (hfresh : req.action_id ∉ Scoreboard.historyIds s)
    (hrate : Scoreboard.countInWindow cfg s.requests req.user_id now <
      cfg.rateLimitPerUser)
    (hbounds : Scoreboard.boundsOk cfg req = true)
    (htime : Scoreboard.temporalOk cfg req now = true)
    (hflag : Scoreboard.fraudFlag cfg s req now = true) :
    Scoreboard.submit cfg s req now =
      (Scoreboard.applyIncrement
        { s with requests := (req.user_id, now) :: s.requests } req now,
       .success (Scoreboard.totalOf s req.user_id + req.points) true) ∧
    Scoreboard.totalOf (Scoreboard.submit cfg s req now).1 req.user_id =
      Scoreboard.totalOf s req.user_id + req.points := by
  have heq : Scoreboard.submit cfg s req now =
      (Scoreboard.applyIncrement
        { s with requests := (req.user_id, now) :: s.requests } req now,
       .success (Scoreboard.totalOf s req.user_id + req.points)
         (Scoreboard.fraudFlag cfg s req now)) := by
    rw [Scoreboard.submit, if_neg (by simp [hfresh]), if_neg (by omega),
      if_neg (by simp [hbounds]), if_neg (by simp [htime])]
  refine ⟨by rw [heq, hflag], ?_⟩
  rw [heq]
  show Scoreboard.totalOf (Scoreboard.applyIncrement _ req now) req.user_id = _
  rw [Scoreboard.totalOf_applyIncrement]
  simp only [if_pos rfl]
  rfl

/-- Concrete instance of C6: a 1000-point action trips the
velocity-of-gain flag yet is applied and reported as success. -/
theorem flagged_action_still_succeeds_witness :
    Scoreboard.submit Scoreboard.sampleConfig Scoreboard.initState
        Scoreboard.flaggedReq 0 =
      (Scoreboard.applyIncrement
        { Scoreboard.initState with
            requests := (Scoreboard.flaggedReq.user_id, 0) ::
              Scoreboard.initState.requests } Scoreboard.flaggedReq 0,
       .success (Scoreboard.totalOf Scoreboard.initState
            Scoreboard.flaggedReq.user_id + Scoreboard.flaggedReq.points)
         true) :=
  (flagged_action_still_succeeds Scoreboard.sampleConfig Scoreboard.initState
    Scoreboard.flaggedReq 0 (by decide) (by decide) (by decide) (by decide)
    (by decide)).1
